import Mathlib

/-!
# Verification of the US-stock-market-alerts drawdown monitor

Shallow embedding of `nasdaq_alert.py`: a scheduled batch job that fetches
daily closing prices for a watchlist, computes drawdown from the all-time-high
close, evaluates percentage thresholds, maintains a persisted armed/sent state
per (symbol, label), renders a dashboard and sends emails.

Modelling conventions:
* Python floats (prices, threshold factors) are modelled as exact rationals
  `ℚ` in the main embedding.  A separate, bit-exact model of IEEE-754
  double-precision arithmetic (as dyadic rationals with round-to-nearest-even)
  is provided to analyse the label computation `int((1 - f) * 100)`, whose
  result depends on double rounding.
* Python `dict`s are modelled as association lists with insertion-order
  semantics: an update of an existing key keeps its position, a new key is
  appended at the end (matching CPython dict semantics and the JSON documents
  produced by `json.dump`).
* The state file is modelled as `Option AlertState` (absent, or holding a
  parsed document); JSON (de)serialisation is delegated to the standard
  library in the source and is modelled at the document level.
* I/O effects of `main` (warnings, state save, dashboard write, emails) are
  modelled as an explicit trace of `Effect`s, in program order.
-/

namespace MarketAlerts

/-! ## Python dict model (association lists, insertion ordered) -/

/-- `d.get(k, dflt)` on a Python dict modelled as an association list. -/
def getD {α : Type} (m : List (String × α)) (k : String) (dflt : α) : α :=
  match m with
  | [] => dflt
  | (k2, v) :: rest => if k2 = k then v else getD rest k dflt

/-- `d[k] = v` on a Python dict: update in place if the key exists,
append otherwise. -/
def setKey {α : Type} (m : List (String × α)) (k : String) (v : α) :
    List (String × α) :=
  match m with
  | [] => [(k, v)]
  | (k2, v2) :: rest => if k2 = k then (k, v) :: rest else (k2, v2) :: setKey rest k v

/-- `k in d` lookup returning the stored value, `none` when absent. -/
def lookup {α : Type} (m : List (String × α)) (k : String) : Option α :=
  match m with
  | [] => none
  | (k2, v) :: rest => if k2 = k then some v else lookup rest k

/-! ## Data model -/

/-- One row of `gather_ticker_status`'s threshold table
(`{"label": ..., "factor": f, "level": ..., "hit": ...}`). -/
structure ThresholdRow where
  label : String
  factor : ℚ
  level : ℚ
  hit : Bool
deriving DecidableEq, Repr

/-- The dict returned by `gather_ticker_status` for a symbol with data. -/
structure TickerStatus where
  last_close : ℚ
  ath_close : ℚ
  drawdown : ℚ
  threshold_rows : List ThresholdRow
deriving DecidableEq, Repr

/-- Per-symbol bucket of the persisted state: threshold label ↦ status string. -/
abbrev Bucket := List (String × String)

/-- The persisted state document: symbol ↦ bucket. -/
abbrev AlertState := List (String × Bucket)

/-- A crossing recorded in `crossed_today`
(`{"symbol": ..., "name": ..., "label": ..., "level": ...}`). -/
structure CrossingEvent where
  symbol : String
  name : String
  label : String
  level : ℚ
deriving DecidableEq, Repr

/-- One entry of `WATCHLIST`. -/
structure WatchlistEntry where
  symbol : String
  name : String
  thresholds : List ℚ
deriving DecidableEq, Repr

/-! ## State store (`load_state` / `save_state`)

`load_state` returns the parsed document when the file exists and `{}`
otherwise; `save_state` overwrites the whole file with the document. -/

def load_state (file : Option AlertState) : AlertState :=
  match file with
  | some st => st
  | none => []

def save_state (st : AlertState) : Option AlertState :=
  some st

/-! ## Threshold evaluator (`gather_ticker_status`) -/

/-- Floor of a rational as an integer (Euclidean division of the numerator by
the positive denominator). -/
def floorQ (q : ℚ) : ℤ := Int.ediv q.num (q.den : ℤ)

/-- Python `int()` applied to a rational: truncation toward zero. -/
def pyTrunc (q : ℚ) : ℤ :=
  if 0 ≤ q then floorQ q else -floorQ (-q)

/-- The label string `f"{int((1 - f) * 100)}%"` of line 73, with the float
arithmetic read as exact rational arithmetic (see `pyLabelStr` for the
bit-exact double-precision reading). -/
def labelOf (f : ℚ) : String :=
  toString (pyTrunc ((1 - f) * 100)) ++ "%"

/-- Lines 67-82 of `gather_ticker_status`: given the fetched series of daily
closes (empty when `df.empty`) and the threshold factors, compute last close,
all-time-high close, drawdown and the threshold rows; `none` models the early
`return None`. -/
def gather_ticker_status (closes : List ℚ) (thresholds : List ℚ) :
    Option TickerStatus :=
  match closes with
  | [] => none
  | c :: cs =>
    let last_close := cs.foldl (fun _ x => x) c
    let ath_close := cs.foldl max c
    let dd := last_close / ath_close - 1
    some
      { last_close := last_close
        ath_close := ath_close
        drawdown := dd
        threshold_rows := thresholds.map (fun f =>
          { label := labelOf f
            factor := f
            level := ath_close * f
            hit := decide (last_close ≤ ath_close * f) }) }

/-! ## Bit-exact IEEE-754 double model for the label computation

`int((1 - f) * 100)` is evaluated by CPython in double precision.  Every
finite double is a dyadic rational, and every arithmetic operation rounds the
exact rational result to the nearest representable double (ties to even), so
for values in the normal range the computation is captured exactly by
rationals together with the rounding map `fl` below. -/

/-- `2 ^ e` as a rational, for an integer exponent. -/
def pow2 : ℤ → ℚ
  | Int.ofNat n => mkRat ((2 : ℤ) ^ n) 1
  | Int.negSucc n => mkRat 1 (2 ^ (n + 1))

/-- Round a rational to the nearest integer, ties to even. -/
def rnEven (q : ℚ) : ℤ :=
  let f := floorQ q
  let r := q - mkRat f 1
  if r < 1 / 2 then f
  else if 1 / 2 < r then f + 1
  else if f % 2 = 0 then f else f + 1

/-- Number of binary digits of a natural number (`0` for `0`), by
fuel-based structural recursion; the fuel `n` dominates the recursion
depth `⌊log₂ n⌋ + 1`. -/
def bitsAux : Nat → Nat → Nat
  | 0, _ => 0
  | fuel + 1, n => if n = 0 then 0 else bitsAux fuel (n / 2) + 1

/-- Bit length: `bits n = ⌊log₂ n⌋ + 1` for `n ≥ 1`. -/
def bits (n : Nat) : Nat := bitsAux n n

/-- `⌊log₂ q⌋` for a positive rational, computed from the bit lengths of
numerator and denominator. -/
def floorLog2Q (q : ℚ) : ℤ :=
  let t : ℤ := (bits q.num.natAbs : ℤ) - (bits q.den : ℤ)
  if q < pow2 t then t - 1 else t

/-- Round a rational to the nearest IEEE-754 binary64 value (round to
nearest, ties to even), for values in the normal range: the significand is
the 53-bit rounding of `|q| / 2 ^ ⌊log₂ |q|⌋ × 2 ^ 52`. -/
def fl (q : ℚ) : ℚ :=
  if q = 0 then 0
  else
    let a := if q < 0 then -q else q
    let e := floorLog2Q a
    let m := rnEven (a * pow2 (52 - e))
    (if q < 0 then (-1 : ℚ) else 1) * mkRat m 1 * pow2 (e - 52)

/-- The label string `f"{int((1 - f) * 100)}%"` of line 73 under CPython's
actual double-precision evaluation: the literal is parsed to the nearest
double, the subtraction and the multiplication each round to nearest-even,
and `int` truncates toward zero. -/
def pyLabelStr (f : ℚ) : String :=
  let fd := fl f
  let s1 := fl (1 - fd)
  let s2 := fl (s1 * 100)
  toString (pyTrunc s2) ++ "%"

/-! ## Crossing logic (`main`, lines 174-186)

For one threshold row `tr`, with `prev = bucket.get(label, "armed")`:

    if hit and prev != "sent":
        crossed_today.append({...}); bucket[label] = "sent"
    if not hit and prev == "sent":
        bucket[label] = "armed"

Both `if`s test the same `prev`, read once before either update. -/

def crossingStep (symbol name : String) (tr : ThresholdRow)
    (bucket : Bucket) (crossed : List CrossingEvent) :
    Bucket × List CrossingEvent :=
  let prev := getD bucket tr.label "armed"
  let p :=
    if tr.hit && !(prev == "sent") then
      (setKey bucket tr.label "sent",
        crossed ++ [{ symbol := symbol, name := name, label := tr.label, level := tr.level }])
    else (bucket, crossed)
  if !tr.hit && (prev == "sent") then (setKey p.1 tr.label "armed", p.2) else p

/-- The inner `for tr in status["threshold_rows"]` loop. -/
def processRows (symbol name : String) (rows : List ThresholdRow)
    (bucket : Bucket) (crossed : List CrossingEvent) :
    Bucket × List CrossingEvent :=
  rows.foldl (fun acc tr => crossingStep symbol name tr acc.1 acc.2) (bucket, crossed)

/-! ## The main run (`main`, lines 155-213) -/

/-- One element of the `results` list: `{"symbol": ..., "name": ..., "status": ...}`. -/
structure SymbolResult where
  symbol : String
  name : String
  status : TickerStatus
deriving DecidableEq, Repr

/-- Accumulator of the `for item in WATCHLIST` loop: the mutable locals
`state`, `results`, `crossed_today` plus the warnings printed so far. -/
structure LoopAcc where
  state : AlertState
  results : List SymbolResult
  crossed : List CrossingEvent
  warns : List String
deriving DecidableEq, Repr

/-- The `[WARN]` line printed for a symbol whose fetch came back empty. -/
def warnMsg (symbol : String) : String :=
  "[WARN] No data for " ++ symbol ++ ", skipping."

/-- One iteration of the watchlist loop.  `fetch` models `yf.download`,
returning the (possibly empty) series of daily closes for a symbol. -/
def stepEntry (fetch : String → List ℚ) (acc : LoopAcc) (item : WatchlistEntry) :
    LoopAcc :=
  match gather_ticker_status (fetch item.symbol) item.thresholds with
  | none => { acc with warns := acc.warns ++ [warnMsg item.symbol] }
  | some status =>
    let bucket := getD acc.state item.symbol []
    let bc := processRows item.symbol item.name status.threshold_rows bucket acc.crossed
    { state := setKey acc.state item.symbol bc.1
      results := acc.results ++ [{ symbol := item.symbol, name := item.name, status := status }]
      crossed := bc.2
      warns := acc.warns }

/-- The whole watchlist loop, starting from the loaded state. -/
def runLoop (wl : List WatchlistEntry) (fetch : String → List ℚ)
    (st0 : AlertState) : LoopAcc :=
  wl.foldl (stepEntry fetch) { state := st0, results := [], crossed := [], warns := [] }

/-- Observable I/O of `main`, in program order. -/
inductive Effect where
  | warn (msg : String)
  | saveStateEff (st : AlertState)
  | writeDashboard (results : List SymbolResult)
  | sendAlertEmail (crossed : List CrossingEvent)
  | sendDigestEmail (results : List SymbolResult) (crossed : List CrossingEvent)
  | logDigestFailure
deriving DecidableEq, Repr

/-- The `try: ... send_email(...) except: print(...)` block around the daily
digest: a successful send emits the digest email, a failure is logged. -/
def digestEffect (results : List SymbolResult) (crossed : List CrossingEvent)
    (digestSendOk : Bool) : Effect :=
  if digestSendOk then Effect.sendDigestEmail results crossed
  else Effect.logDigestFailure

/-- `main`: load state, loop over the watchlist, save state, write the
dashboard, send the crossing-alert email when there were crossings (not
wrapped in `try`, so a failing send there propagates, modelled by the
`Option String` error component), then attempt the daily digest inside
`try/except`.  `alertSendOk` / `digestSendOk` say whether the respective
`send_email` call would succeed. -/
def mainRun (wl : List WatchlistEntry) (fetch : String → List ℚ)
    (stateFile : Option AlertState) (alertSendOk digestSendOk : Bool) :
    List Effect × Option String :=
  let acc := runLoop wl fetch (load_state stateFile)
  let pre := acc.warns.map Effect.warn ++
    [Effect.saveStateEff acc.state, Effect.writeDashboard acc.results]
  if acc.crossed.isEmpty then
    (pre ++ [digestEffect acc.results acc.crossed digestSendOk], none)
  else if alertSendOk then
    (pre ++ [Effect.sendAlertEmail acc.crossed,
             digestEffect acc.results acc.crossed digestSendOk], none)
  else
    (pre, some "send_email raised")

/-- The static `WATCHLIST` configuration (lines 17-22), with the float
literals read as exact rationals. -/
def WATCHLIST : List WatchlistEntry :=
  [ { symbol := "^IXIC", name := "Nasdaq Composite (IXIC)",
      thresholds := [17/20, 4/5, 3/4, 7/10] }
  , { symbol := "^GSPC", name := "S&P 500 (SPX)",
      thresholds := [17/20, 4/5, 3/4, 7/10] }
  , { symbol := "TSLA", name := "Tesla, Inc. (TSLA)",
      thresholds := [17/20, 4/5, 3/4, 7/10] }
  , { symbol := "ONDS", name := "Tesla, Inc. (TSLA)",
      thresholds := [7/10] } ]

/-! ## Dictionary lemmas -/

theorem getD_setKey_self {α : Type} (m : List (String × α)) (k : String) (v d : α) :
    getD (setKey m k v) k d = v := by
  induction m with
  | nil => simp [setKey, getD]
  | cons p rest ih =>
    obtain ⟨a, b⟩ := p
    by_cases h : a = k
    · simp [setKey, getD, h]
    · simp [setKey, getD, h, ih]

theorem getD_setKey_ne {α : Type} (m : List (String × α)) (k k2 : String) (v d : α)
    (h : k2 ≠ k) : getD (setKey m k v) k2 d = getD m k2 d := by
  have hk : k ≠ k2 := Ne.symm h
  induction m with
  | nil => simp [setKey, getD, hk]
  | cons p rest ih =>
    obtain ⟨a, b⟩ := p
    by_cases hp : a = k
    · subst hp
      simp [setKey, getD, hk]
    · simp [setKey, getD, hp, ih]

theorem lookup_setKey_ne {α : Type} (m : List (String × α)) (k k2 : String) (v : α)
    (h : k2 ≠ k) : lookup (setKey m k v) k2 = lookup m k2 := by
  have hk : k ≠ k2 := Ne.symm h
  induction m with
  | nil => simp [setKey, lookup, hk]
  | cons p rest ih =>
    obtain ⟨a, b⟩ := p
    by_cases hp : a = k
    · subst hp
      simp [setKey, lookup, hk]
    · simp [setKey, lookup, hp, ih]

/-! ## C1: the state transition of one (symbol, label) evaluation -/

/-- C1: for every (symbol, label) pair evaluated in a run, with the previous
status read from the bucket (an absent label reading as "armed"), the
transition is: hit ∧ prev ≠ "sent" ⇒ record one CrossingEvent and set the
status to "sent"; ¬hit ∧ prev = "sent" ⇒ reset the status to "armed";
hit ∧ prev = "sent" ⇒ no event, bucket unchanged; ¬hit ∧ prev ≠ "sent" ⇒
no event, bucket unchanged. -/
theorem C1_transition_rules (symbol name : String) (tr : ThresholdRow)
    (bucket : Bucket) (crossed : List CrossingEvent) :
    crossingStep symbol name tr bucket crossed =
      (let prev := getD bucket tr.label "armed"
       if tr.hit then
         if prev = "sent" then (bucket, crossed)
         else (setKey bucket tr.label "sent",
           crossed ++ [{ symbol := symbol, name := name, label := tr.label, level := tr.level }])
       else
         if prev = "sent" then (setKey bucket tr.label "armed", crossed)
         else (bucket, crossed)) := by
  unfold crossingStep
  cases h : tr.hit <;>
    by_cases hp : getD bucket tr.label "armed" = "sent" <;>
      simp [h, hp]

/-! ## C4: idempotence on an already-"sent" label -/

/-- C4: when the stored status of the (symbol, label) pair is already
"sent" and the threshold is still hit, re-running the evaluator records no
new CrossingEvent and leaves the bucket (hence the "sent" status)
unchanged. -/
theorem C4_sent_is_idempotent (symbol name : String) (tr : ThresholdRow)
    (bucket : Bucket) (crossed : List CrossingEvent)
    (hhit : tr.hit = true)
    (hprev : getD bucket tr.label "armed" = "sent") :
    crossingStep symbol name tr bucket crossed = (bucket, crossed) := by
  unfold crossingStep
  simp [hhit, hprev]

/-- Witness for C4 at a concrete input: TSLA with the 15% label already
"sent" and the threshold still hit. -/
theorem C4_sent_is_idempotent_witness :
    crossingStep "TSLA" "Tesla, Inc. (TSLA)"
      { label := "15%", factor := 17/20, level := 85, hit := true }
      [("15%", "sent")] [] = ([("15%", "sent")], []) :=
  C4_sent_is_idempotent "TSLA" "Tesla, Inc. (TSLA)"
    { label := "15%", factor := 17/20, level := 85, hit := true }
    [("15%", "sent")] [] rfl rfl

/-! ## C5: recovery then re-cross fires exactly once -/

/-- C5: starting from a bucket whose status for `label` is "sent", a run in
which the threshold is not hit (price recovered) records no CrossingEvent
and resets the status to "armed"; the following run in which the threshold
is hit again records exactly one CrossingEvent and sets the status back to
"sent".  Each run starts with an empty `crossed_today` list. -/
theorem C5_recovery_then_recross (symbol name label : String)
    (f1 f2 lv1 lv2 : ℚ) (bucket : Bucket)
    (hsent : getD bucket label "armed" = "sent") :
    (crossingStep symbol name { label := label, factor := f1, level := lv1, hit := false }
        bucket []).2 = [] ∧
    getD (crossingStep symbol name { label := label, factor := f1, level := lv1, hit := false }
        bucket []).1 label "armed" = "armed" ∧
    (crossingStep symbol name { label := label, factor := f2, level := lv2, hit := true }
        (crossingStep symbol name { label := label, factor := f1, level := lv1, hit := false }
          bucket []).1 []).2 =
      [{ symbol := symbol, name := name, label := label, level := lv2 }] ∧
    getD (crossingStep symbol name { label := label, factor := f2, level := lv2, hit := true }
        (crossingStep symbol name { label := label, factor := f1, level := lv1, hit := false }
          bucket []).1 []).1 label "armed" = "sent" := by
  have h1 : crossingStep symbol name { label := label, factor := f1, level := lv1, hit := false }
      bucket [] = (setKey bucket label "armed", []) := by
    unfold crossingStep
    simp [hsent]
  have harmed : getD (setKey bucket label "armed") label "armed" = "armed" :=
    getD_setKey_self bucket label "armed" "armed"
  have h2 : crossingStep symbol name { label := label, factor := f2, level := lv2, hit := true }
      (setKey bucket label "armed") [] =
      (setKey (setKey bucket label "armed") label "sent",
        [{ symbol := symbol, name := name, label := label, level := lv2 }]) := by
    unfold crossingStep
    simp [harmed]
  refine ⟨by simp [h1], by simp [h1, harmed], by simp [h1, h2], ?_⟩
  simp [h1, h2, getD_setKey_self]

/-- Witness for C5 at a concrete input. -/
theorem C5_recovery_then_recross_witness :
    ((crossingStep "^IXIC" "Nasdaq Composite (IXIC)"
        { label := "15%", factor := 17/20, level := 85, hit := false }
        [("15%", "sent")] []).2 = [] ∧
     getD (crossingStep "^IXIC" "Nasdaq Composite (IXIC)"
        { label := "15%", factor := 17/20, level := 85, hit := false }
        [("15%", "sent")] []).1 "15%" "armed" = "armed" ∧
     (crossingStep "^IXIC" "Nasdaq Composite (IXIC)"
        { label := "15%", factor := 17/20, level := 84, hit := true }
        (crossingStep "^IXIC" "Nasdaq Composite (IXIC)"
          { label := "15%", factor := 17/20, level := 85, hit := false }
          [("15%", "sent")] []).1 []).2 =
       [{ symbol := "^IXIC", name := "Nasdaq Composite (IXIC)", label := "15%", level := 84 }] ∧
     getD (crossingStep "^IXIC" "Nasdaq Composite (IXIC)"
        { label := "15%", factor := 17/20, level := 84, hit := true }
        (crossingStep "^IXIC" "Nasdaq Composite (IXIC)"
          { label := "15%", factor := 17/20, level := 85, hit := false }
          [("15%", "sent")] []).1 []).1 "15%" "armed" = "sent") :=
  C5_recovery_then_recross "^IXIC" "Nasdaq Composite (IXIC)" "15%"
    (17/20) (17/20) 85 84 [("15%", "sent")] rfl

/-! ## C8: state persistence round-trip -/

/-- C8: loading a persisted AlertState document and saving it again leaves
the persisted document unchanged, and loading when no state file exists
yields the empty mapping (the JSON (de)serialisation itself is delegated to
the standard library and modelled at the document level). -/
theorem C8_state_roundtrip :
    (∀ x : AlertState, save_state (load_state (some x)) = some x) ∧
    load_state (none : Option AlertState) = ([] : AlertState) :=
  ⟨fun _ => rfl, rfl⟩

/-! ## C2: the threshold evaluator -/

theorem foldl_last_eq_getLast (c : ℚ) (cs : List ℚ) :
    cs.foldl (fun _ x => x) c = (c :: cs).getLast (List.cons_ne_nil c cs) := by
  induction cs generalizing c with
  | nil => rfl
  | cons x xs ih =>
    rw [List.foldl_cons, ih x]
    exact (List.getLast_cons (List.cons_ne_nil x xs)).symm

theorem foldl_max_mem (c : ℚ) (cs : List ℚ) : cs.foldl max c ∈ c :: cs := by
  induction cs generalizing c with
  | nil => simp [List.foldl_nil]
  | cons x xs ih =>
    rw [List.foldl_cons]
    rcases List.mem_cons.1 (ih (max c x)) with hm | hm
    · rcases max_choice c x with hc | hc
      · rw [hm, hc]
        exact List.mem_cons_self c (x :: xs)
      · rw [hm, hc]
        exact List.mem_cons_of_mem c (List.mem_cons_self x xs)
    · exact List.mem_cons_of_mem c (List.mem_cons_of_mem x hm)

theorem le_foldl_max (c : ℚ) (cs : List ℚ) : ∀ x ∈ c :: cs, x ≤ cs.foldl max c := by
  induction cs generalizing c with
  | nil =>
    intro x hx
    rw [List.foldl_nil]
    rcases List.mem_cons.1 hx with h1 | h1
    · exact le_of_eq h1
    · exact absurd h1 (List.not_mem_nil x)
  | cons y ys ih =>
    intro x hx
    rw [List.foldl_cons]
    rcases List.mem_cons.1 hx with h1 | h1
    · rw [h1]
      exact le_trans (le_max_left c y) (ih (max c y) (max c y) (List.mem_cons_self _ _))
    · rcases List.mem_cons.1 h1 with h2 | h2
      · rw [h2]
        exact le_trans (le_max_right c y) (ih (max c y) (max c y) (List.mem_cons_self _ _))
      · exact ih (max c y) x (List.mem_cons_of_mem _ h2)

/-- C2: for a non-empty price series, `gather_ticker_status` returns a
status whose `last_close` is the final close, whose `ath_close` is the
maximum close, and whose threshold rows appear in the order of the input
factors with `level = ath_close × f` and `hit ⇔ last_close ≤ level`; in
particular a tie (`last_close = level`) counts as hit. -/
theorem C2_evaluator_rows (closes thresholds : List ℚ) (h : closes ≠ []) :
    ∃ st, gather_ticker_status closes thresholds = some st ∧
      st.last_close = closes.getLast h ∧
      st.ath_close ∈ closes ∧
      (∀ c ∈ closes, c ≤ st.ath_close) ∧
      st.threshold_rows.map ThresholdRow.factor = thresholds ∧
      (∀ r ∈ st.threshold_rows,
        r.level = st.ath_close * r.factor ∧
        (r.hit = true ↔ st.last_close ≤ r.level) ∧
        (st.last_close = r.level → r.hit = true)) := by
  obtain ⟨c, cs, rfl⟩ := List.exists_cons_of_ne_nil h
  refine ⟨_, rfl, foldl_last_eq_getLast c cs, foldl_max_mem c cs, le_foldl_max c cs, ?_, ?_⟩
  · rw [List.map_map]
    exact List.map_id thresholds
  · intro r hr
    obtain ⟨f, _, rfl⟩ := List.mem_map.1 hr
    refine ⟨rfl, by simp, ?_⟩
    intro he
    simp only [decide_eq_true_iff]
    exact le_of_eq he

/-- Witness for C2: the spec's end-to-end scenario `ath_close = 100`,
`last_close = 84`, factors `[0.85, 0.80]`. -/
theorem C2_evaluator_rows_witness :
    (([100, 84] : List ℚ) ≠ []) ∧
    (∃ st, gather_ticker_status ([100, 84] : List ℚ) [17/20, 4/5] = some st ∧
      st.last_close = ([100, 84] : List ℚ).getLast (by simp) ∧
      st.ath_close ∈ ([100, 84] : List ℚ) ∧
      (∀ c ∈ ([100, 84] : List ℚ), c ≤ st.ath_close) ∧
      st.threshold_rows.map ThresholdRow.factor = [17/20, 4/5] ∧
      (∀ r ∈ st.threshold_rows,
        r.level = st.ath_close * r.factor ∧
        (r.hit = true ↔ st.last_close ≤ r.level) ∧
        (st.last_close = r.level → r.hit = true))) :=
  ⟨by simp, C2_evaluator_rows [100, 84] [17/20, 4/5] (by simp)⟩

/-! ## C3: the label computation under IEEE-754 doubles -/

set_option maxRecDepth 100000 in
/-- C3 (code behaviour at the failing input): under CPython's actual
double-precision evaluation, the label produced for factor 0.80 is "19%" —
`(1 - 0.8) * 100` evaluates to `19.999999999999996` and `int` truncates —
while exact arithmetic (the spec's `floor((1-f)×100)`, and the watchlist
comment `-15,-20,-25,-30`) gives "20%".  The other three configured factors
are unaffected: both readings give "15%", "25%", "30%". -/
theorem C3_label_bug_at_080 :
    pyLabelStr (80/100) = "19%" ∧ labelOf (80/100) = "20%" ∧
    pyLabelStr (85/100) = "15%" ∧ pyLabelStr (75/100) = "25%" ∧
    pyLabelStr (70/100) = "30%" ∧ labelOf (85/100) = "15%" ∧
    labelOf (75/100) = "25%" ∧ labelOf (70/100) = "30%" := by
  refine ⟨?_, ?_, ?_, ?_, ?_, ?_, ?_, ?_⟩ <;> with_unfolding_all rfl

/-! ## Properties of the crossing step and the row loop -/

theorem crossingStep_fst_const (s n : String) (tr : ThresholdRow) (b : Bucket)
    (cs : List CrossingEvent) :
    (crossingStep s n tr b cs).1 = (crossingStep s n tr b []).1 := by
  unfold crossingStep
  cases hh : tr.hit <;>
    by_cases hp : getD b tr.label "armed" = "sent" <;> simp [hh, hp]

theorem crossingStep_crossed_append (s n : String) (tr : ThresholdRow) (b : Bucket)
    (cs : List CrossingEvent) :
    (crossingStep s n tr b cs).2 = cs ++ (crossingStep s n tr b []).2 := by
  unfold crossingStep
  cases hh : tr.hit <;>
    by_cases hp : getD b tr.label "armed" = "sent" <;> simp [hh, hp]

theorem crossingStep_getD_ne (s n : String) (tr : ThresholdRow) (b : Bucket)
    (cs : List CrossingEvent) (l d : String) (h : l ≠ tr.label) :
    getD (crossingStep s n tr b cs).1 l d = getD b l d := by
  unfold crossingStep
  cases hh : tr.hit <;>
    by_cases hp : getD b tr.label "armed" = "sent" <;>
      simp [hh, hp, getD_setKey_ne _ _ _ _ _ h]

theorem crossingStep_sent_iff (s n : String) (tr : ThresholdRow) (b : Bucket)
    (cs : List CrossingEvent) :
    getD (crossingStep s n tr b cs).1 tr.label "armed" = "sent" ↔ tr.hit = true := by
  unfold crossingStep
  cases hh : tr.hit <;>
    by_cases hp : getD b tr.label "armed" = "sent" <;>
      simp [hh, hp, getD_setKey_self]

theorem crossingStep_mem_label (s n : String) (tr : ThresholdRow) (b : Bucket) :
    ∀ e ∈ (crossingStep s n tr b []).2, e.label = tr.label := by
  unfold crossingStep
  cases hh : tr.hit <;>
    by_cases hp : getD b tr.label "armed" = "sent" <;> simp [hh, hp]

theorem crossingStep_events_len (s n : String) (tr : ThresholdRow) (b : Bucket) :
    (crossingStep s n tr b []).2.length ≤ 1 := by
  unfold crossingStep
  cases hh : tr.hit <;>
    by_cases hp : getD b tr.label "armed" = "sent" <;> simp [hh, hp]

theorem processRows_append (s n : String) (rows : List ThresholdRow) :
    ∀ (b : Bucket) (cs : List CrossingEvent),
      processRows s n rows b cs =
        ((processRows s n rows b []).1, cs ++ (processRows s n rows b []).2) := by
  induction rows with
  | nil =>
    intro b cs
    simp [processRows]
  | cons tr rest ih =>
    intro b cs
    have e1 : processRows s n (tr :: rest) b cs =
        processRows s n rest (crossingStep s n tr b cs).1 (crossingStep s n tr b cs).2 := rfl
    have e2 : processRows s n (tr :: rest) b [] =
        processRows s n rest (crossingStep s n tr b []).1 (crossingStep s n tr b []).2 := rfl
    rw [e1, e2, crossingStep_fst_const s n tr b cs, crossingStep_crossed_append s n tr b cs]
    rw [ih ((crossingStep s n tr b []).1) (cs ++ (crossingStep s n tr b []).2)]
    rw [ih ((crossingStep s n tr b []).1) ((crossingStep s n tr b []).2)]
    simp [List.append_assoc]

theorem processRows_getD_not_mem (s n : String) (rows : List ThresholdRow) :
    ∀ (b : Bucket) (cs : List CrossingEvent) (l d : String),
      l ∉ rows.map ThresholdRow.label →
      getD (processRows s n rows b cs).1 l d = getD b l d := by
  induction rows with
  | nil =>
    intro b cs l d _
    rfl
  | cons tr rest ih =>
    intro b cs l d h
    simp only [List.map_cons, List.mem_cons, not_or] at h
    have e1 : processRows s n (tr :: rest) b cs =
        processRows s n rest (crossingStep s n tr b cs).1 (crossingStep s n tr b cs).2 := rfl
    rw [e1, ih _ _ l d h.2, crossingStep_getD_ne s n tr b cs l d h.1]

theorem processRows_events_labels (s n : String) (rows : List ThresholdRow) :
    ∀ (b : Bucket), ∀ e ∈ (processRows s n rows b []).2,
      e.label ∈ rows.map ThresholdRow.label := by
  induction rows with
  | nil =>
    intro b e he
    simp [processRows] at he
  | cons tr rest ih =>
    intro b e he
    have e1 : processRows s n (tr :: rest) b [] =
        processRows s n rest (crossingStep s n tr b []).1 (crossingStep s n tr b []).2 := rfl
    rw [e1, processRows_append s n rest ((crossingStep s n tr b []).1)
      ((crossingStep s n tr b []).2)] at he
    simp only [List.mem_append] at he
    rcases he with he | he
    · rw [crossingStep_mem_label s n tr b e he]
      exact List.mem_cons_self _ _
    · exact List.mem_cons_of_mem _ (ih _ e he)

/-! ## C9: post-state characterisation of one processed symbol -/

/-- C9: after running the crossing loop over a symbol's threshold rows
(starting, as each run does, from an empty `crossed_today` list), provided
the rows carry pairwise-distinct labels — true of every configured
watchlist entry — each row's stored status is "sent" iff that row was hit
this run (an absent entry reads as "armed", which is not "sent"), and at
most one CrossingEvent is recorded per (symbol, label) pair. -/
theorem C9_sent_iff_hit_once_per_label (symbol name : String) (rows : List ThresholdRow) :
    ∀ bucket : Bucket, (rows.map ThresholdRow.label).Nodup →
      ∀ tr ∈ rows,
        (getD (processRows symbol name rows bucket []).1 tr.label "armed" = "sent" ↔
          tr.hit = true) ∧
        ((processRows symbol name rows bucket []).2.filter
            (fun e => e.label == tr.label)).length ≤ 1 := by
  induction rows with
  | nil =>
    intro bucket _ tr htr
    simp at htr
  | cons tr0 rest ih =>
    intro bucket hnd tr htr
    simp only [List.map_cons, List.nodup_cons] at hnd
    have e1 : processRows symbol name (tr0 :: rest) bucket [] =
        processRows symbol name rest (crossingStep symbol name tr0 bucket []).1
          (crossingStep symbol name tr0 bucket []).2 := rfl
    rw [e1, processRows_append symbol name rest
      ((crossingStep symbol name tr0 bucket []).1)
      ((crossingStep symbol name tr0 bucket []).2)]
    rcases List.mem_cons.1 htr with rfl | hmem
    · constructor
      · show getD (processRows symbol name rest
            (crossingStep symbol name tr bucket []).1 []).1 tr.label "armed" = "sent" ↔
          tr.hit = true
        rw [processRows_getD_not_mem symbol name rest _ [] tr.label "armed" hnd.1]
        exact crossingStep_sent_iff symbol name tr bucket []
      · show (((crossingStep symbol name tr bucket []).2 ++
            (processRows symbol name rest (crossingStep symbol name tr bucket []).1 []).2).filter
              (fun e => e.label == tr.label)).length ≤ 1
        rw [List.filter_append, List.length_append]
        have h2 : (processRows symbol name rest
            (crossingStep symbol name tr bucket []).1 []).2.filter
              (fun e => e.label == tr.label) = [] := by
          rw [List.filter_eq_nil_iff]
          intro e he
          have := processRows_events_labels symbol name rest _ e he
          simp only [beq_iff_eq]
          intro hcontra
          rw [hcontra] at this
          exact hnd.1 this
        rw [h2]
        simp only [List.length_nil, Nat.add_zero]
        exact le_trans (List.length_filter_le _ _) (crossingStep_events_len symbol name tr bucket)
    · have hlabel_ne : tr.label ≠ tr0.label := by
        intro hcontra
        exact hnd.1 (hcontra ▸ List.mem_map_of_mem ThresholdRow.label hmem)
      have hrec := ih ((crossingStep symbol name tr0 bucket []).1) hnd.2 tr hmem
      constructor
      · exact hrec.1
      · show (((crossingStep symbol name tr0 bucket []).2 ++
            (processRows symbol name rest (crossingStep symbol name tr0 bucket []).1 []).2).filter
              (fun e => e.label == tr.label)).length ≤ 1
        rw [List.filter_append, List.length_append]
        have h1 : (crossingStep symbol name tr0 bucket []).2.filter
            (fun e => e.label == tr.label) = [] := by
          rw [List.filter_eq_nil_iff]
          intro e he
          have := crossingStep_mem_label symbol name tr0 bucket e he
          simp only [beq_iff_eq]
          intro hcontra
          exact hlabel_ne (hcontra ▸ this)
        rw [h1]
        simp only [List.length_nil, Nat.zero_add]
        exact hrec.2

/-- Witness for C9: two rows with distinct labels "15%" (hit) and "20%"
(not hit), empty prior bucket. -/
theorem C9_sent_iff_hit_once_per_label_witness :
    (([{ label := "15%", factor := 17/20, level := 85, hit := true },
       { label := "20%", factor := 4/5, level := 80, hit := false }] : List ThresholdRow).map
        ThresholdRow.label).Nodup ∧
    (∀ tr ∈ ([{ label := "15%", factor := 17/20, level := 85, hit := true },
        { label := "20%", factor := 4/5, level := 80, hit := false }] : List ThresholdRow),
      (getD (processRows "^GSPC" "S&P 500 (SPX)"
          [{ label := "15%", factor := 17/20, level := 85, hit := true },
           { label := "20%", factor := 4/5, level := 80, hit := false }] [] []).1
          tr.label "armed" = "sent" ↔ tr.hit = true) ∧
      ((processRows "^GSPC" "S&P 500 (SPX)"
          [{ label := "15%", factor := 17/20, level := 85, hit := true },
           { label := "20%", factor := 4/5, level := 80, hit := false }] [] []).2.filter
          (fun e => e.label == tr.label)).length ≤ 1) :=
  ⟨by simp, C9_sent_iff_hit_once_per_label "^GSPC" "S&P 500 (SPX)"
    [{ label := "15%", factor := 17/20, level := 85, hit := true },
     { label := "20%", factor := 4/5, level := 80, hit := false }] [] (by simp)⟩

/-! ## Characterising the watchlist loop -/

theorem stepEntry_none (fetch : String → List ℚ) (acc : LoopAcc) (item : WatchlistEntry)
    (hg : gather_ticker_status (fetch item.symbol) item.thresholds = none) :
    stepEntry fetch acc item = { acc with warns := acc.warns ++ [warnMsg item.symbol] } := by
  unfold stepEntry
  rw [hg]

theorem stepEntry_some (fetch : String → List ℚ) (acc : LoopAcc) (item : WatchlistEntry)
    (status : TickerStatus)
    (hg : gather_ticker_status (fetch item.symbol) item.thresholds = some status) :
    stepEntry fetch acc item =
      { state := setKey acc.state item.symbol
          (processRows item.symbol item.name status.threshold_rows
            (getD acc.state item.symbol []) acc.crossed).1
        results := acc.results ++ [{ symbol := item.symbol, name := item.name, status := status }]
        crossed := (processRows item.symbol item.name status.threshold_rows
          (getD acc.state item.symbol []) acc.crossed).2
        warns := acc.warns } := by
  unfold stepEntry
  rw [hg]

/-- The `results` list a run builds: one entry per watchlist item whose
fetch produced data, in watchlist order. -/
def loopResults (wl : List WatchlistEntry) (fetch : String → List ℚ) : List SymbolResult :=
  wl.filterMap (fun item =>
    (gather_ticker_status (fetch item.symbol) item.thresholds).map
      (fun st => { symbol := item.symbol, name := item.name, status := st }))

theorem foldl_stepEntry_results (fetch : String → List ℚ) :
    ∀ (wl : List WatchlistEntry) (acc : LoopAcc),
      (wl.foldl (stepEntry fetch) acc).results = acc.results ++ loopResults wl fetch := by
  intro wl
  induction wl with
  | nil =>
    intro acc
    simp [loopResults]
  | cons item rest ih =>
    intro acc
    rw [List.foldl_cons, ih]
    unfold loopResults
    simp only [List.filterMap_cons]
    cases hg : gather_ticker_status (fetch item.symbol) item.thresholds with
    | none =>
      rw [stepEntry_none fetch acc item hg]
      simp [hg]
    | some status =>
      rw [stepEntry_some fetch acc item status hg]
      simp [hg]

theorem foldl_stepEntry_warns (fetch : String → List ℚ) :
    ∀ (wl : List WatchlistEntry) (acc : LoopAcc),
      (wl.foldl (stepEntry fetch) acc).warns =
        acc.warns ++ wl.filterMap (fun item =>
          if gather_ticker_status (fetch item.symbol) item.thresholds = none
          then some (warnMsg item.symbol) else none) := by
  intro wl
  induction wl with
  | nil =>
    intro acc
    simp
  | cons item rest ih =>
    intro acc
    rw [List.foldl_cons, ih]
    simp only [List.filterMap_cons]
    cases hg : gather_ticker_status (fetch item.symbol) item.thresholds with
    | none =>
      rw [stepEntry_none fetch acc item hg]
      simp [hg]
    | some status =>
      rw [stepEntry_some fetch acc item status hg]
      simp [hg]

theorem loopResults_fetch_ne (wl : List WatchlistEntry) (fetch : String → List ℚ) :
    ∀ r ∈ loopResults wl fetch, fetch r.symbol ≠ [] := by
  intro r hr
  obtain ⟨item, hmem, hmap⟩ := List.mem_filterMap.1 hr
  cases hg : gather_ticker_status (fetch item.symbol) item.thresholds with
  | none =>
    rw [hg] at hmap
    simp at hmap
  | some status =>
    rw [hg] at hmap
    have hmap2 : ({ symbol := item.symbol, name := item.name, status := status } : SymbolResult) = r := by
      injection hmap
    have hsym : r.symbol = item.symbol := by
      rw [← hmap2]
    intro hempty
    rw [hsym] at hempty
    rw [hempty] at hg
    simp [gather_ticker_status] at hg

theorem loopResults_complete (wl : List WatchlistEntry) (fetch : String → List ℚ) :
    ∀ item ∈ wl, fetch item.symbol ≠ [] →
      ∃ st, gather_ticker_status (fetch item.symbol) item.thresholds = some st ∧
        ({ symbol := item.symbol, name := item.name, status := st } : SymbolResult) ∈
          loopResults wl fetch := by
  intro item hmem hne
  cases hg : gather_ticker_status (fetch item.symbol) item.thresholds with
  | none =>
    exfalso
    cases hf : fetch item.symbol with
    | nil => exact hne hf
    | cons c cs =>
      rw [hf] at hg
      simp [gather_ticker_status] at hg
  | some st =>
    refine ⟨st, rfl, List.mem_filterMap.2 ⟨item, hmem, ?_⟩⟩
    show (gather_ticker_status (fetch item.symbol) item.thresholds).map
        (fun st2 => ({ symbol := item.symbol, name := item.name, status := st2 } : SymbolResult)) =
      some { symbol := item.symbol, name := item.name, status := st }
    rw [hg]
    rfl

/-! ## C6: an empty fetch skips only that symbol -/

/-- C6: when the fetch for one watchlist symbol returns an empty series,
that symbol is skipped with a `[WARN]` line and the run still completes
without error: the dashboard and the daily digest email are produced from
the results of the remaining symbols, every symbol whose fetch returned
data is covered, and no result carries the skipped symbol. -/
theorem C6_empty_fetch_skipped (wl : List WatchlistEntry) (fetch : String → List ℚ)
    (stateFile : Option AlertState) (item : WatchlistEntry)
    (hmem : item ∈ wl) (hempty : fetch item.symbol = []) :
    (mainRun wl fetch stateFile true true).2 = none ∧
    Effect.warn (warnMsg item.symbol) ∈ (mainRun wl fetch stateFile true true).1 ∧
    Effect.writeDashboard (loopResults wl fetch) ∈ (mainRun wl fetch stateFile true true).1 ∧
    Effect.sendDigestEmail (loopResults wl fetch)
        (runLoop wl fetch (load_state stateFile)).crossed ∈
      (mainRun wl fetch stateFile true true).1 ∧
    (∀ r ∈ loopResults wl fetch, r.symbol ≠ item.symbol) ∧
    (∀ it ∈ wl, fetch it.symbol ≠ [] →
      ∃ st, gather_ticker_status (fetch it.symbol) it.thresholds = some st ∧
        ({ symbol := it.symbol, name := it.name, status := st } : SymbolResult) ∈
          loopResults wl fetch) := by
  have hres : (runLoop wl fetch (load_state stateFile)).results = loopResults wl fetch := by
    unfold runLoop
    rw [foldl_stepEntry_results fetch wl]
    rfl
  have hgnone : gather_ticker_status (fetch item.symbol) item.thresholds = none := by
    rw [hempty]
    rfl
  have hwarnmem : warnMsg item.symbol ∈ (runLoop wl fetch (load_state stateFile)).warns := by
    unfold runLoop
    rw [foldl_stepEntry_warns fetch wl]
    refine List.mem_append.mpr (Or.inr (List.mem_filterMap.2 ⟨item, hmem, ?_⟩))
    simp [hgnone]
  have htrace : (mainRun wl fetch stateFile true true).2 = none ∧
      (mainRun wl fetch stateFile true true).1 =
        (runLoop wl fetch (load_state stateFile)).warns.map Effect.warn ++
        [Effect.saveStateEff (runLoop wl fetch (load_state stateFile)).state,
         Effect.writeDashboard (runLoop wl fetch (load_state stateFile)).results] ++
        (if (runLoop wl fetch (load_state stateFile)).crossed.isEmpty then []
         else [Effect.sendAlertEmail (runLoop wl fetch (load_state stateFile)).crossed]) ++
        [Effect.sendDigestEmail (runLoop wl fetch (load_state stateFile)).results
          (runLoop wl fetch (load_state stateFile)).crossed] := by
    unfold mainRun
    by_cases hc : (runLoop wl fetch (load_state stateFile)).crossed.isEmpty <;>
      simp [hc, digestEffect]
  refine ⟨htrace.1, ?_, ?_, ?_, ?_, loopResults_complete wl fetch⟩
  · rw [htrace.2]
    refine List.mem_append.mpr (Or.inl (List.mem_append.mpr (Or.inl
      (List.mem_append.mpr (Or.inl ?_)))))
    exact List.mem_map_of_mem Effect.warn hwarnmem
  · rw [htrace.2, hres]
    refine List.mem_append.mpr (Or.inl (List.mem_append.mpr (Or.inl
      (List.mem_append.mpr (Or.inr ?_)))))
    exact List.mem_cons_of_mem _ (List.mem_cons_self _ _)
  · rw [htrace.2, hres]
    exact List.mem_append.mpr (Or.inr (List.mem_cons_self _ _))
  · intro r hr hcontra
    refine loopResults_fetch_ne wl fetch r hr ?_
    rw [hcontra, hempty]

/-- Witness for C6: the configured watchlist with a provider returning no
data at all; the Nasdaq entry is skipped, as are the others. -/
theorem C6_empty_fetch_skipped_witness :
    (({ symbol := "^IXIC", name := "Nasdaq Composite (IXIC)",
        thresholds := [17/20, 4/5, 3/4, 7/10] } : WatchlistEntry) ∈ WATCHLIST) ∧
    ((mainRun WATCHLIST (fun _ => []) none true true).2 = none ∧
     Effect.warn (warnMsg "^IXIC") ∈ (mainRun WATCHLIST (fun _ => []) none true true).1 ∧
     Effect.writeDashboard (loopResults WATCHLIST (fun _ => [])) ∈
       (mainRun WATCHLIST (fun _ => []) none true true).1 ∧
     Effect.sendDigestEmail (loopResults WATCHLIST (fun _ => []))
         (runLoop WATCHLIST (fun _ => []) (load_state none)).crossed ∈
       (mainRun WATCHLIST (fun _ => []) none true true).1 ∧
     (∀ r ∈ loopResults WATCHLIST (fun _ => []), r.symbol ≠ "^IXIC") ∧
     (∀ it ∈ WATCHLIST, (fun _ : String => ([] : List ℚ)) it.symbol ≠ [] →
       ∃ st, gather_ticker_status ((fun _ : String => ([] : List ℚ)) it.symbol) it.thresholds =
           some st ∧
         ({ symbol := it.symbol, name := it.name, status := st } : SymbolResult) ∈
           loopResults WATCHLIST (fun _ => []))) :=
  ⟨by simp [WATCHLIST],
   C6_empty_fetch_skipped WATCHLIST (fun _ => []) none
     { symbol := "^IXIC", name := "Nasdaq Composite (IXIC)",
       thresholds := [17/20, 4/5, 3/4, 7/10] }
     (by simp [WATCHLIST]) rfl⟩

/-! ## C7: a failing daily digest is contained -/

/-- C7: whenever the run reaches the daily digest (i.e. the unguarded
crossing-alert send before it did not itself raise), a failure inside the
digest `try` block is logged and not propagated: the run's error component
is `none`, and the trace shows the state save and the dashboard write
already performed before the digest failure log, which is the final
effect. -/
theorem C7_digest_failure_contained (wl : List WatchlistEntry) (fetch : String → List ℚ)
    (stateFile : Option AlertState) (alertSendOk : Bool)
    (h : (runLoop wl fetch (load_state stateFile)).crossed = [] ∨ alertSendOk = true) :
    (mainRun wl fetch stateFile alertSendOk false).2 = none ∧
    ∃ mid, (mainRun wl fetch stateFile alertSendOk false).1 =
      (runLoop wl fetch (load_state stateFile)).warns.map Effect.warn ++
      [Effect.saveStateEff (runLoop wl fetch (load_state stateFile)).state,
       Effect.writeDashboard (runLoop wl fetch (load_state stateFile)).results] ++
      mid ++ [Effect.logDigestFailure] := by
  by_cases hc : (runLoop wl fetch (load_state stateFile)).crossed.isEmpty
  · constructor
    · unfold mainRun
      simp [hc]
    · refine ⟨[], ?_⟩
      unfold mainRun
      simp [hc, digestEffect]
  · have ha : alertSendOk = true := by
      rcases h with h1 | h1
      · exfalso
        rw [h1] at hc
        simp at hc
      · exact h1
    subst ha
    constructor
    · unfold mainRun
      simp [hc]
    · refine ⟨[Effect.sendAlertEmail (runLoop wl fetch (load_state stateFile)).crossed], ?_⟩
      unfold mainRun
      simp [hc, digestEffect]

/-- Witness for C7: the configured watchlist, no data, no prior state; the
digest send fails and the run still ends cleanly after saving state and
writing the dashboard. -/
theorem C7_digest_failure_contained_witness :
    ((runLoop WATCHLIST (fun _ => []) (load_state none)).crossed = [] ∨ true = true) ∧
    ((mainRun WATCHLIST (fun _ => []) none true false).2 = none ∧
     ∃ mid, (mainRun WATCHLIST (fun _ => []) none true false).1 =
       (runLoop WATCHLIST (fun _ => []) (load_state none)).warns.map Effect.warn ++
       [Effect.saveStateEff (runLoop WATCHLIST (fun _ => []) (load_state none)).state,
        Effect.writeDashboard (runLoop WATCHLIST (fun _ => []) (load_state none)).results] ++
       mid ++ [Effect.logDigestFailure]) :=
  ⟨Or.inr rfl, C7_digest_failure_contained WATCHLIST (fun _ => []) none true (Or.inr rfl)⟩

/-! ## C10: untouched symbols keep their loaded state entry -/

theorem runLoop_lookup_preserved (fetch : String → List ℚ) (s : String) :
    ∀ (wl : List WatchlistEntry) (acc : LoopAcc),
      (∀ item ∈ wl, item.symbol = s → fetch item.symbol = []) →
      lookup (wl.foldl (stepEntry fetch) acc).state s = lookup acc.state s := by
  intro wl
  induction wl with
  | nil =>
    intro acc _
    rfl
  | cons item rest ih =>
    intro acc h
    rw [List.foldl_cons,
      ih (stepEntry fetch acc item) (fun it hm he => h it (List.mem_cons_of_mem _ hm) he)]
    cases hg : gather_ticker_status (fetch item.symbol) item.thresholds with
    | none =>
      rw [stepEntry_none fetch acc item hg]
    | some status =>
      rw [stepEntry_some fetch acc item status hg]
      by_cases hs : item.symbol = s
      · exfalso
        have he := h item (List.mem_cons_self _ _) hs
        rw [he] at hg
        simp [gather_ticker_status] at hg
      · exact lookup_setKey_ne acc.state item.symbol s _ (Ne.symm hs)

/-- C10: a symbol whose fetch returned an empty series — or that does not
occur in the watchlist at all — keeps exactly its loaded state entry
(present or absent) in the document that `save_state` writes back, because
the run writes the whole loaded document with only processed symbols'
buckets replaced. -/
theorem C10_skipped_state_preserved (wl : List WatchlistEntry) (fetch : String → List ℚ)
    (stateFile : Option AlertState) (s : String)
    (h : ∀ item ∈ wl, item.symbol = s → fetch item.symbol = []) :
    save_state (runLoop wl fetch (load_state stateFile)).state =
      some (runLoop wl fetch (load_state stateFile)).state ∧
    lookup (runLoop wl fetch (load_state stateFile)).state s =
      lookup (load_state stateFile) s :=
  ⟨rfl, runLoop_lookup_preserved fetch s wl
    { state := load_state stateFile, results := [], crossed := [], warns := [] } h⟩

/-- Witness for C10: a run in which every fetch is empty leaves the loaded
TSLA bucket exactly where it was. -/
theorem C10_skipped_state_preserved_witness :
    (∀ item ∈ WATCHLIST, item.symbol = "TSLA" →
      (fun _ : String => ([] : List ℚ)) item.symbol = []) ∧
    (save_state (runLoop WATCHLIST (fun _ => [])
        (load_state (some [("TSLA", [("15%", "sent")])]))).state =
      some (runLoop WATCHLIST (fun _ => [])
        (load_state (some [("TSLA", [("15%", "sent")])]))).state ∧
     lookup (runLoop WATCHLIST (fun _ => [])
        (load_state (some [("TSLA", [("15%", "sent")])]))).state "TSLA" =
      lookup (load_state (some [("TSLA", [("15%", "sent")])])) "TSLA") :=
  ⟨fun _ _ _ => rfl,
   C10_skipped_state_preserved WATCHLIST (fun _ => [])
     (some [("TSLA", [("15%", "sent")])]) "TSLA" (fun _ _ _ => rfl)⟩

end MarketAlerts
